import Mathlib

/-!
Beatbox lo-fi mixer: step sequencer, mixer and transport.

A shallow embedding of `src/App.jsx`.

* A JavaScript object with string keys is an association list `Obj α`
  (own properties in insertion order); `Obj.get` is the property read
  `o[k]` (`none` for `undefined`) and `Obj.set` the property write.
* An operation that can raise a JavaScript `TypeError` returns `Except JsError`.
* React state is a record; an event handler is a function from state to state.
* Numbers that the program only compares or stores (times, random draws,
  probabilities) are exact rationals; decimal literals keep their source spelling.
-/

namespace Beatbox

/-! ## JavaScript objects -/

/-- The error a property access on `undefined` raises. -/
inductive JsError where
  | typeError
  deriving DecidableEq, Repr

/-- An object: its own properties, in insertion order. -/
abbrev Obj (α : Type) := List (String × α)

/-- Property read `o[k]`; `none` stands for `undefined`. -/
def Obj.get {α : Type} : Obj α → String → Option α
  | [], _ => none
  | (k', v) :: rest, k => if k' = k then some v else Obj.get rest k

/-- Property write `o[k] = v`: replaces the value in place when the key exists,
appends a new property otherwise. -/
def Obj.set {α : Type} : Obj α → String → α → Obj α
  | [], k, v => [(k, v)]
  | (k', v') :: rest, k, v => if k' = k then (k', v) :: rest else (k', v') :: Obj.set rest k v

/-- The keys of an object, as `Object.keys` lists them. -/
def Obj.keys {α : Type} (o : Obj α) : List String := o.map Prod.fst

/-- The loop `Object.entries(o).forEach(([k, x]) => ...)` whose body updates each value. -/
def Obj.mapValues {α : Type} (f : α → α) (o : Obj α) : Obj α := o.map (fun entry => (entry.1, f entry.2))

/-- The callback form of `Array.prototype.map`: `f` receives the index and the element. -/
def mapIdxFrom {α β : Type} (f : Nat → α → β) : Nat → List α → List β
  | _, [] => []
  | n, x :: xs => f n x :: mapIdxFrom f (n + 1) xs

/-- The array method `arr.map((v, idx) => f idx v)`. -/
def jsMap {α β : Type} (f : Nat → α → β) (xs : List α) : List β := mapIdxFrom f 0 xs

/-! ## Helpers (`App.jsx` lines 5-34) -/

/-- An entry of the `INSTRUMENTS` table. -/
structure Instrument where
  key : String
  label : String
  color : String
  note : Option String
  type : String
  deriving DecidableEq, Repr

/-- The `INSTRUMENTS` table. -/
def INSTRUMENTS : List Instrument :=
  [ { key := "kick", label := "Kick", color := "bg-emerald-600", note := some "C1", type := "membrane" },
    { key := "snare", label := "Snare", color := "bg-rose-600", note := none, type := "snare" },
    { key := "chh", label := "Hi\u2011Hat C", color := "bg-zinc-600", note := none, type := "hihatC" },
    { key := "ohh", label := "Hi\u2011Hat O", color := "bg-zinc-500", note := none, type := "hihatO" },
    { key := "clap", label := "Clap", color := "bg-fuchsia-600", note := none, type := "clap" },
    { key := "perc", label := "Perc", color := "bg-sky-600", note := some "D2", type := "metal" } ]

/-- The keys of `INSTRUMENTS`, in declaration order. -/
def instrumentKeys : List String := INSTRUMENTS.map Instrument.key

/-- One bar of sixteenth notes. -/
def STEPS : Nat := 16

/-- The pattern object: instrument key to step sequence. -/
abbrev Pattern := Obj (List Bool)

/-- The assignment `pattern[k][i] = v` on an existing sequence and an index inside it. -/
def setCell (p : Pattern) (k : String) (i : Nat) (v : Bool) : Pattern :=
  match p.get k with
  | some seq => p.set k (seq.set i v)
  | none => p

/-- The function `defaultPattern`. -/
def defaultPattern : Pattern :=
  let pattern : Pattern := INSTRUMENTS.foldl (fun p inst => p.set inst.key (List.replicate STEPS false)) []
  let pattern := setCell pattern "kick" 0 true
  let pattern := setCell pattern "kick" 8 true
  let pattern := setCell pattern "snare" 4 true
  let pattern := setCell pattern "snare" 12 true
  -- for (let i = 0; i < STEPS; i += 2) pattern.chh[i] = true
  let pattern := ((List.range STEPS).filter (fun i => i % 2 = 0)).foldl (fun p i => setCell p "chh" i true) pattern
  let pattern := setCell pattern "ohh" 10 true
  let pattern := setCell (setCell pattern "clap" 4 true) "clap" 12 true
  let pattern := setCell pattern "perc" 14 true
  pattern

/-! ## The audio engine (`useAudioEngine`, lines 37-194) -/

/-- The shape of a node's `synth` field: a synth object with its own
`triggerAttackRelease` (kick, perc), or a record `{ noise, env, ... }`. -/
inductive Synth where
  | tonal
  | noiseBurst
  deriving DecidableEq, Repr

/-- The object in a node's `vol` field, by the two properties the engine writes:
`vol.mute` and `vol.volume.value`. -/
structure Vol where
  mute : Bool
  volume : Int
  deriving DecidableEq, Repr

/-- An entry of `nodesRef.current`. -/
structure Node where
  synth : Synth
  vol : Vol
  mute : Bool
  solo : Bool
  deriving DecidableEq, Repr

/-- The assignment `n.vol.mute = m`. -/
def Node.setVolMute (n : Node) (m : Bool) : Node := { n with vol := { n.vol with mute := m } }

/-- The assignment `n.vol.volume.value = db`. -/
def Node.setVolValue (n : Node) (db : Int) : Node := { n with vol := { n.vol with volume := db } }

/-- The assignment `n.solo = solo`. -/
def Node.setSoloFlag (n : Node) (solo : Bool) : Node := { n with solo := solo }

/-- A call the engine makes on a sound generator. -/
inductive AudioCall where
  | triggerAttackRelease (which : String) (note : String) (duration : String) (t : ℚ)
  | noiseStart (which : String) (t : ℚ)
  | envTriggerAttackRelease (which : String) (duration : String) (t : ℚ)
  | noiseStop (which : String) (t : ℚ)
  deriving DecidableEq, Repr

/-- The refs of `useAudioEngine` that the instrument operations touch, with the
calls made on the sound generators so far. -/
structure Engine where
  ready : Bool
  nodes : Obj Node
  scheduled : List AudioCall
  deriving DecidableEq, Repr

/-- The engine before `ensure` has completed: `readyRef = false`, `nodesRef = {}`. -/
def Engine.initial : Engine := { ready := false, nodes := [], scheduled := [] }

/-- The table `ensure` stores in `nodesRef.current`. -/
def ensureNodes : Obj Node :=
  [ ("kick", { synth := .tonal, vol := { mute := false, volume := 0 }, mute := false, solo := false }),
    ("snare", { synth := .noiseBurst, vol := { mute := false, volume := 0 }, mute := false, solo := false }),
    ("chh", { synth := .noiseBurst, vol := { mute := false, volume := -6 }, mute := false, solo := false }),
    ("ohh", { synth := .noiseBurst, vol := { mute := false, volume := -6 }, mute := false, solo := false }),
    ("clap", { synth := .noiseBurst, vol := { mute := false, volume := -6 }, mute := false, solo := false }),
    ("perc", { synth := .tonal, vol := { mute := false, volume := 0 }, mute := false, solo := false }) ]

/-- The function `ensure`, once its awaited start has resolved. -/
def ensure (e : Engine) : Engine :=
  if e.ready then e else { e with nodes := ensureNodes, ready := true }

/-- The function `trigger`; `now` is the value of `Tone.now()`, and `time = none`
is a call without a time. -/
def trigger (e : Engine) (now : ℚ) (which : String) (time : Option ℚ) : Except JsError Engine :=
  match e.nodes.get which with
  | none => .ok e
  | some node =>
    -- const t = time || Tone.now()
    let t : ℚ := match time with
      | some x => if x = 0 then now else x
      | none => now
    if which = "kick" then
      match node.synth with
      | .tonal => .ok { e with scheduled := e.scheduled ++ [.triggerAttackRelease which "C1" "16n" t] }
      | .noiseBurst => .error .typeError
    else if which = "perc" then
      match node.synth with
      | .tonal => .ok { e with scheduled := e.scheduled ++ [.triggerAttackRelease which "D2" "16n" t] }
      | .noiseBurst => .error .typeError
    else
      match node.synth with
      | .noiseBurst =>
        .ok { e with scheduled := e.scheduled ++
                [.noiseStart which t, .envTriggerAttackRelease which "16n" t, .noiseStop which (t + 0.2)] }
      | .tonal => .error .typeError

/-- The function `setVolume`. -/
def setVolume (e : Engine) (key : String) (db : Int) : Except JsError Engine :=
  match e.nodes.get key with
  | some n => .ok { e with nodes := e.nodes.set key (n.setVolValue db) }
  | none => .ok e

/-- The function `setMute`: `n.vol.mute = mute`, with no test of `n`. -/
def setMute (e : Engine) (key : String) (mute : Bool) : Except JsError Engine :=
  match e.nodes.get key with
  | none => .error .typeError
  | some n => .ok { e with nodes := e.nodes.set key (n.setVolMute mute) }

/-- The function `setSolo`: `n.solo = solo`, with no test of `n`, then the pass
over every node. -/
def setSolo (e : Engine) (key : String) (solo : Bool) : Except JsError Engine :=
  match e.nodes.get key with
  | none => .error .typeError
  | some n =>
    let nodes := e.nodes.set key (n.setSoloFlag solo)
    -- If any track is solo'd, mute all others
    let anySolo := nodes.any (fun x => x.2.solo)
    .ok { e with nodes := nodes.mapValues (fun node => node.setVolMute (if anySolo then !node.solo else false)) }

/-! ## The component state (`BeatboxMixerApp`, lines 196-282) -/

/-- The event handler `toggleCell`, as the state updater it passes to `setPattern`. -/
def toggleCell (p : Pattern) (instrKey : String) (i : Int) : Except JsError Pattern :=
  match p.get instrKey with
  | none => .error .typeError
  | some seq => .ok (p.set instrKey (jsMap (fun idx v => if (idx : Int) = i then !v else v) seq))

/-- The event handler `clearAll`. -/
def clearAll (_p : Pattern) : Pattern := defaultPattern

/-- The expression `baseProb` of `randomize`. -/
def baseProb (key : String) (i : Nat) : ℚ :=
  if key = "kick" then 0.25 else if key = "snare" then (if i % 4 = 0 then 0.1 else 0.05) else 0.2

/-- The event handler `randomize`, as the state updater it passes to `setPattern`;
`rand k i` is the value `Math.random()` returns for instrument `k` at index `i`. -/
def randomize (rand : String → Nat → ℚ) (p : Pattern) : Except JsError Pattern :=
  INSTRUMENTS.foldlM (fun (np : Pattern) inst =>
    match p.get inst.key with
    | none => .error .typeError
    | some seq => .ok (np.set inst.key (jsMap (fun i _ => decide (rand inst.key i < baseProb inst.key i)) seq))) []

/-- The `Tone.Sequence` built by `togglePlay`: the pattern its callback closes
over, its event list and its subdivision. -/
structure Sequence where
  pattern : Pattern
  events : List Nat
  subdivision : String
  deriving DecidableEq, Repr

/-- The component state, the ref `playerRef`, the transport, and two logs: the
sequences disposed so far and the `engine.trigger` calls made so far. -/
structure App where
  pattern : Pattern
  playing : Bool
  bpm : Int
  bars : Nat
  currentStep : Int
  playerRef : Option Sequence
  disposed : List Sequence
  transportBpm : Int
  transportStarted : Bool
  triggered : List (String × ℚ)
  deriving DecidableEq, Repr

/-- The state after the first render and its effects. -/
def App.initial : App :=
  { pattern := defaultPattern, playing := false, bpm := 85, bars := 1, currentStep := -1,
    playerRef := none, disposed := [], transportBpm := 85, transportStarted := false, triggered := [] }

/-- The constant `loopLength = bars * STEPS`. -/
def loopLength (s : App) : Nat := s.bars * STEPS

/-- The statement `if (playerRef.current) playerRef.current.dispose()`, on the log. -/
def disposePlayer (s : App) : List Sequence :=
  match s.playerRef with
  | some q => s.disposed ++ [q]
  | none => s.disposed

/-- The event handler `togglePlay`. -/
def togglePlay (s : App) : App :=
  if s.playing then
    { s with transportStarted := false, playing := false, currentStep := -1,
             disposed := disposePlayer s, playerRef := none }
  else
    { s with playing := true, currentStep := 0, disposed := disposePlayer s,
             playerRef := some { pattern := s.pattern, events := List.range (loopLength s), subdivision := "16n" },
             transportStarted := true }

/-- The state change `setBpm(b)` with the effect that depends on `[bpm]`: when
`bpm` changes, the cleanup of the previous run disposes the player and clears
the ref, then the effect writes the transport tempo. -/
def setBpm (s : App) (b : Int) : App :=
  if b = s.bpm then s
  else { s with bpm := b, disposed := disposePlayer s, playerRef := none, transportBpm := b }

/-- The state change `setBars(b)`. -/
def setBars (s : App) (b : Nat) : App := { s with bars := b }

/-- The `engine.trigger` calls of the sequence callback, in call order: the body
of `INSTRUMENTS.forEach` for a given `pattern`, `time` and `step`. -/
def stepTriggers (pattern : Pattern) (time : ℚ) (step : Nat) : Except JsError (List (String × ℚ)) :=
  INSTRUMENTS.foldlM (fun calls inst =>
    match pattern.get inst.key with
    | none => .error .typeError
    | some seq => if seq.getD step false then .ok (calls ++ [(inst.key, time)]) else .ok calls) []

/-- The sequence callback firing `step` at `time`: possible only for an event of
the sequence in `playerRef` while the transport runs. -/
def fireStep (s : App) (time : ℚ) (step : Nat) : Option App :=
  match s.playerRef with
  | none => none
  | some q =>
    if s.transportStarted = true ∧ step ∈ q.events then
      match stepTriggers q.pattern time step with
      | .ok calls => some { s with currentStep := step, triggered := s.triggered ++ calls }
      | .error _ => none
    else none

/-- What can happen to the component. -/
inductive Action where
  | togglePlay
  | setBpm (b : Int)
  | setBars (b : Nat)
  | fire (time : ℚ) (step : Nat)
  | toggleCell (instrKey : String) (i : Int)
  | clearAll
  | randomize (rand : String → Nat → ℚ)

/-- One action on the component; `none` when the action cannot happen or raises. -/
def App.step (s : App) : Action → Option App
  | .togglePlay => some (togglePlay s)
  | .setBpm b => some (setBpm s b)
  | .setBars b => some (setBars s b)
  | .fire time step => fireStep s time step
  | .toggleCell k i =>
    match toggleCell s.pattern k i with
    | .ok p => some { s with pattern := p }
    | .error _ => none
  | .clearAll => some { s with pattern := clearAll s.pattern }
  | .randomize rand =>
    match randomize rand s.pattern with
    | .ok p => some { s with pattern := p }
    | .error _ => none

/-- A run of actions from a state. -/
def App.run : App → List Action → Option App
  | s, [] => some s
  | s, a :: rest => (s.step a).bind (fun s' => App.run s' rest)

/-- The bars slider offers the values 1 to 4. -/
def Action.InRange : Action → Prop
  | .setBars b => 1 ≤ b ∧ b ≤ 4
  | _ => True

instance Action.decidableInRange : (a : Action) → Decidable a.InRange
  | .setBars b => inferInstanceAs (Decidable (1 ≤ b ∧ b ≤ 4))
  | .togglePlay => isTrue trivial
  | .setBpm _ => isTrue trivial
  | .fire _ _ => isTrue trivial
  | .toggleCell _ _ => isTrue trivial
  | .clearAll => isTrue trivial
  | .randomize _ => isTrue trivial

/-! ## The words of the specification -/

/-- The truth value of the expression `pattern[k][s]`: false when the step is
beyond the sequence or the instrument has no sequence. -/
def Pattern.cell (pattern : Pattern) (k : String) (s : Nat) : Bool :=
  match pattern.get k with
  | some seq => seq.getD s false
  | none => false

/-- The probabilities the specification gives for `randomize`: 1/4 for kick,
1/10 for snare on a downbeat and 1/20 off it, and the flat default 1/5. -/
def randomizeProbability (k : String) (i : Nat) : ℚ :=
  if k = "kick" then 1 / 4
  else if k = "snare" then (if i % 4 = 0 then 1 / 10 else 1 / 20)
  else 1 / 5

/-- The pattern part of a component state: the six keys, each with `STEPS` cells,
and a bars value the slider offers. -/
def PatternShape (s : App) : Prop :=
  s.pattern.keys = instrumentKeys ∧
  (∀ k ∈ instrumentKeys, ∃ seq, s.pattern.get k = some seq ∧ seq.length = STEPS) ∧
  1 ≤ s.bars ∧ s.bars ≤ 4

/-- The transport part of a component state: stopped means step -1 and no
sequence; running means a step inside the sequence that was built at play start,
itself one to four bars long. -/
def TransportShape (s : App) : Prop :=
  (s.playing = false → s.currentStep = -1 ∧ s.playerRef = none) ∧
  (s.playing = true → 0 ≤ s.currentStep ∧ s.currentStep < 4 * 16) ∧
  (∀ q, s.playerRef = some q →
    s.currentStep < q.events.length ∧ ∃ b, 1 ≤ b ∧ b ≤ 4 ∧ q.events = List.range (b * STEPS)) ∧
  1 ≤ s.bars ∧ s.bars ≤ 4

/-- A mixer call on a voice. -/
inductive MixCall where
  | setMute (id : String) (m : Bool)
  | setSolo (id : String) (s : Bool)
  deriving DecidableEq, Repr

/-- The instrument id a mixer call is made on. -/
def MixCall.id : MixCall → String
  | .setMute id _ => id
  | .setSolo id _ => id

/-- One mixer call on the engine. -/
def Engine.applyCall (e : Engine) : MixCall → Except JsError Engine
  | .setMute id m => setMute e id m
  | .setSolo id s => setSolo e id s

/-- A sequence of mixer calls on the engine, stopping at the first error. -/
def Engine.runCalls : Engine → List MixCall → Except JsError Engine
  | e, [] => .ok e
  | e, c :: rest =>
    match e.applyCall c with
    | .ok e' => Engine.runCalls e' rest
    | .error err => .error err

/-- The applied mute `nodes[v].vol.mute` of a result, when there is one. -/
def appliedMute (r : Except JsError Engine) (v : String) : Option Bool :=
  match r with
  | .ok e => (e.nodes.get v).map (fun n => n.vol.mute)
  | .error _ => none

/-- The value most recently passed to `setMute` for `v`, from `cur` on. -/
def lastMuteFrom (cur : Bool) (cs : List MixCall) (v : String) : Bool :=
  cs.foldl (fun acc c =>
    match c with
    | .setMute id m => if id = v then m else acc
    | .setSolo _ _ => acc) cur

/-- The value most recently passed to `setSolo` for `v`, from `cur` on. -/
def lastSoloFrom (cur : Bool) (cs : List MixCall) (v : String) : Bool :=
  cs.foldl (fun acc c =>
    match c with
    | .setSolo id s => if id = v then s else acc
    | .setMute _ _ => acc) cur

/-- The value of the latest `setMute` for `v` that no `setSolo` call (on any
voice) has followed, from `cur` on. -/
def muteSinceSoloFrom (cur : Option Bool) (cs : List MixCall) (v : String) : Option Bool :=
  cs.foldl (fun acc c =>
    match c with
    | .setSolo _ _ => none
    | .setMute id m => if id = v then some m else acc) cur

/-- The explicit mute of the specification: the value most recently passed to
`setMute` for `v`, false if never set. -/
def lastMute (cs : List MixCall) (v : String) : Bool := lastMuteFrom false cs v

/-- The solo flag of the specification: the value most recently passed to
`setSolo` for `v`, false if never set. -/
def lastSolo (cs : List MixCall) (v : String) : Bool := lastSoloFrom false cs v

/-- The value of the latest `setMute` for `v` made after the latest `setSolo` call. -/
def muteSinceSolo (cs : List MixCall) (v : String) : Option Bool := muteSinceSoloFrom none cs v

/-- The effective mute of the specification: `muted OR (anySoloed AND NOT soloed)`. -/
def specEffectiveMute (cs : List MixCall) (v : String) : Bool :=
  lastMute cs v || (instrumentKeys.any (fun k => lastSolo cs k) && !lastSolo cs v)

/-- The applied mute the code leaves: the latest mute written since the last
solo call if there is one, otherwise `anySoloed AND NOT soloed`. -/
def codeAppliedMute (since : Option Bool) (anySoloed soloed : Bool) : Bool :=
  match since with
  | some m => m
  | none => anySoloed && !soloed

/-- A state for the examples: three bars, and the default pattern with the perc
cell at step 14 switched off. -/
def App.exampleEdited : App :=
  { App.initial with bars := 3, pattern := setCell defaultPattern "perc" 14 false }

/-- A state for the examples: playing a two-bar sequence at step 16 after the
bars slider went back to 1. -/
def App.exampleRunning : App :=
  { App.initial with
    playing := true, bars := 1, currentStep := 16, transportStarted := true,
    playerRef := some { pattern := defaultPattern, events := List.range 32, subdivision := "16n" } }

/-! ## Facts about objects -/

theorem Obj.get_set_self {α : Type} (o : Obj α) (k : String) (v : α) :
    (o.set k v).get k = some v := by
  induction o with
  | nil => simp [Obj.set, Obj.get]
  | cons hd tl ih =>
    obtain ⟨k', v'⟩ := hd
    by_cases h : k' = k
    · simp [Obj.set, Obj.get, h]
    · simp [Obj.set, Obj.get, h, ih]

theorem Obj.get_set_ne {α : Type} (o : Obj α) (k k' : String) (v : α) (hne : k' ≠ k) :
    (o.set k v).get k' = o.get k' := by
  induction o with
  | nil => simp [Obj.set, Obj.get, hne.symm]
  | cons hd tl ih =>
    obtain ⟨k0, v0⟩ := hd
    by_cases h : k0 = k
    · subst h
      simp [Obj.set, Obj.get, hne.symm]
    · by_cases h2 : k0 = k'
      · subst h2
        simp [Obj.set, Obj.get, h]
      · simp [Obj.set, Obj.get, h, h2, ih]

theorem Obj.keys_set_of_get {α : Type} (o : Obj α) (k : String) (v v0 : α)
    (h : o.get k = some v0) : (o.set k v).keys = o.keys := by
  induction o with
  | nil => simp [Obj.get] at h
  | cons hd tl ih =>
    obtain ⟨k', v'⟩ := hd
    by_cases hk : k' = k
    · simp [Obj.set, Obj.keys, hk]
    · simp only [Obj.get, hk, if_false] at h
      have := ih h
      simp only [Obj.keys] at this
      simp [Obj.set, Obj.keys, hk, this]

theorem Obj.set_get_self {α : Type} (o : Obj α) (k : String) (v : α)
    (h : o.get k = some v) : o.set k v = o := by
  induction o with
  | nil => simp [Obj.get] at h
  | cons hd tl ih =>
    obtain ⟨k', v'⟩ := hd
    by_cases hk : k' = k
    · simp only [Obj.get, hk, if_true, Option.some.injEq] at h
      simp [Obj.set, hk, h]
    · simp only [Obj.get, hk, if_false] at h
      simp [Obj.set, hk, ih h]

theorem Obj.get_mapValues {α : Type} (o : Obj α) (f : α → α) (k : String) :
    (o.mapValues f).get k = (o.get k).map f := by
  induction o with
  | nil => simp [Obj.get, Obj.mapValues]
  | cons hd tl ih =>
    obtain ⟨k', v'⟩ := hd
    simp only [Obj.mapValues] at ih
    by_cases hk : k' = k
    · simp [Obj.get, Obj.mapValues, hk]
    · simp [Obj.get, Obj.mapValues, hk, ih]

theorem Obj.keys_mapValues {α : Type} (o : Obj α) (f : α → α) :
    (o.mapValues f).keys = o.keys := by
  simp [Obj.keys, Obj.mapValues, List.map_map, Function.comp_def]

theorem Obj.mem_of_get {α : Type} (o : Obj α) (k : String) (v : α)
    (h : o.get k = some v) : (k, v) ∈ o := by
  induction o with
  | nil => simp [Obj.get] at h
  | cons hd tl ih =>
    obtain ⟨k', v'⟩ := hd
    by_cases hk : k' = k
    · simp only [Obj.get, hk, if_true, Option.some.injEq] at h
      simp [hk, h]
    · simp only [Obj.get, hk, if_false] at h
      exact List.mem_cons_of_mem _ (ih h)

theorem Obj.get_eq_none_iff {α : Type} (o : Obj α) (k : String) :
    o.get k = none ↔ k ∉ o.keys := by
  induction o with
  | nil => simp [Obj.get, Obj.keys]
  | cons hd tl ih =>
    obtain ⟨k', v'⟩ := hd
    by_cases hk : k' = k
    · simp [Obj.get, Obj.keys, hk]
    · have hk' : ¬ k = k' := fun h => hk h.symm
      simp only [Obj.keys] at ih
      simp [Obj.get, Obj.keys, hk, hk', ih]

theorem Obj.get_of_mem_keys {α : Type} (o : Obj α) (k : String) (h : k ∈ o.keys) :
    ∃ v, o.get k = some v := by
  cases hg : o.get k with
  | none => exact absurd h ((Obj.get_eq_none_iff o k).1 hg)
  | some v => exact ⟨v, rfl⟩

/-! ## The default pattern -/

/-- C5: `defaultPattern()` has exactly the six instrument keys, each with 16
booleans; the true cells are kick 0 and 8, snare 4 and 12, closed hat every even
step, open hat 10, clap 4 and 12, perc 14, and every other cell is false. -/
theorem defaultPattern_exact :
    defaultPattern.keys = ["kick", "snare", "chh", "ohh", "clap", "perc"] ∧
    (∀ k, k ∉ ["kick", "snare", "chh", "ohh", "clap", "perc"] → defaultPattern.get k = none) ∧
    (∃ seq, defaultPattern.get "kick" = some seq ∧ seq.length = 16 ∧
      ∀ i, seq.getD i false = true ↔ i = 0 ∨ i = 8) ∧
    (∃ seq, defaultPattern.get "snare" = some seq ∧ seq.length = 16 ∧
      ∀ i, seq.getD i false = true ↔ i = 4 ∨ i = 12) ∧
    (∃ seq, defaultPattern.get "chh" = some seq ∧ seq.length = 16 ∧
      ∀ i, seq.getD i false = true ↔ i < 16 ∧ i % 2 = 0) ∧
    (∃ seq, defaultPattern.get "ohh" = some seq ∧ seq.length = 16 ∧
      ∀ i, seq.getD i false = true ↔ i = 10) ∧
    (∃ seq, defaultPattern.get "clap" = some seq ∧ seq.length = 16 ∧
      ∀ i, seq.getD i false = true ↔ i = 4 ∨ i = 12) ∧
    (∃ seq, defaultPattern.get "perc" = some seq ∧ seq.length = 16 ∧
      ∀ i, seq.getD i false = true ↔ i = 14) := by
  have hcells : ∀ (seq : List Bool) (P : Nat → Prop) [DecidablePred P], seq.length = 16 →
      (∀ i, i < 16 → (seq.getD i false = true ↔ P i)) → (∀ i, 16 ≤ i → ¬ P i) →
      ∀ i, seq.getD i false = true ↔ P i := by
    intro seq P _ hlen hlt hge i
    by_cases hi : i < 16
    · exact hlt i hi
    · have h16 : 16 ≤ i := Nat.le_of_not_lt hi
      have : seq.getD i false = false := List.getD_eq_default _ _ (by omega)
      rw [this]
      simp [hge i h16]
  refine ⟨by decide, ?_, ?_, ?_, ?_, ?_, ?_, ?_⟩
  · intro k hk
    rw [Obj.get_eq_none_iff]
    have hkeys : defaultPattern.keys = ["kick", "snare", "chh", "ohh", "clap", "perc"] := by decide
    rw [hkeys]
    exact hk
  · refine ⟨(List.range 16).map (fun i => decide (i = 0 ∨ i = 8)), by decide, by decide, ?_⟩
    exact hcells _ (fun i => i = 0 ∨ i = 8) (by decide) (by decide) (by intro i hi; omega)
  · refine ⟨(List.range 16).map (fun i => decide (i = 4 ∨ i = 12)), by decide, by decide, ?_⟩
    exact hcells _ (fun i => i = 4 ∨ i = 12) (by decide) (by decide) (by intro i hi; omega)
  · refine ⟨(List.range 16).map (fun i => decide (i < 16 ∧ i % 2 = 0)), by decide, by decide, ?_⟩
    exact hcells _ (fun i => i < 16 ∧ i % 2 = 0) (by decide) (by decide) (by intro i hi; omega)
  · refine ⟨(List.range 16).map (fun i => decide (i = 10)), by decide, by decide, ?_⟩
    exact hcells _ (fun i => i = 10) (by decide) (by decide) (by intro i hi; omega)
  · refine ⟨(List.range 16).map (fun i => decide (i = 4 ∨ i = 12)), by decide, by decide, ?_⟩
    exact hcells _ (fun i => i = 4 ∨ i = 12) (by decide) (by decide) (by intro i hi; omega)
  · refine ⟨(List.range 16).map (fun i => decide (i = 14)), by decide, by decide, ?_⟩
    exact hcells _ (fun i => i = 14) (by decide) (by decide) (by intro i hi; omega)

/-! ## Mute and solo -/

/-- What `setSolo` does on a key of the table: the solo flag is written, then
every node's applied mute is recomputed from the solo flags alone. -/
theorem setSolo_get (e : Engine) (key : String) (solo : Bool) (n : Node)
    (h : e.nodes.get key = some n) :
    ∃ e', setSolo e key solo = .ok e' ∧ e'.nodes.keys = e.nodes.keys ∧
      ∀ k, e'.nodes.get k =
        ((e.nodes.set key (n.setSoloFlag solo)).get k).map (fun node =>
          node.setVolMute (if (e.nodes.set key (n.setSoloFlag solo)).any (fun x => x.2.solo)
            then !node.solo else false)) := by
  refine ⟨{ e with nodes := (e.nodes.set key (n.setSoloFlag solo)).mapValues (fun node =>
          node.setVolMute (if (e.nodes.set key (n.setSoloFlag solo)).any (fun x => x.2.solo)
            then !node.solo else false)) }, ?_, ?_, ?_⟩
  · simp only [setSolo, h]
  · dsimp only
    rw [Obj.keys_mapValues]
    exact Obj.keys_set_of_get _ _ _ _ h
  · intro k
    dsimp only
    rw [Obj.get_mapValues]

/-- What `setMute` does on a key of the table: only that node's applied mute is written. -/
theorem setMute_get (e : Engine) (key : String) (mute : Bool) (n : Node)
    (h : e.nodes.get key = some n) :
    ∃ e', setMute e key mute = .ok e' ∧ e'.nodes.keys = e.nodes.keys ∧
      e'.nodes.get key = some (n.setVolMute mute) ∧
      ∀ k, k ≠ key → e'.nodes.get k = e.nodes.get k := by
  refine ⟨{ e with nodes := e.nodes.set key (n.setVolMute mute) }, ?_, ?_, ?_, ?_⟩
  · simp only [setMute, h]
  · exact Obj.keys_set_of_get _ _ _ _ h
  · exact Obj.get_set_self _ _ _
  · intro k hk
    exact Obj.get_set_ne _ _ _ _ hk

/-- C6: for any table of the six voices in which no voice is soloed, whatever the
applied mutes are, `setSolo(X, true)` leaves X with applied mute false and each of
the other five voices with applied mute true. -/
theorem setSolo_true_mutes_others (e : Engine) (X : String)
    (hkeys : e.nodes.keys = instrumentKeys)
    (hsolo : ∀ entry ∈ e.nodes, entry.2.solo = false)
    (hX : X ∈ instrumentKeys) :
    ∃ e', setSolo e X true = .ok e' ∧ e'.nodes.keys = instrumentKeys ∧
      (∃ n, e'.nodes.get X = some n ∧ n.vol.mute = false) ∧
      ∀ Y ∈ instrumentKeys, Y ≠ X → ∃ n, e'.nodes.get Y = some n ∧ n.vol.mute = true := by
  obtain ⟨n, hn⟩ := Obj.get_of_mem_keys e.nodes X (hkeys ▸ hX)
  obtain ⟨e', hok, hk, hget⟩ := setSolo_get e X true n hn
  have hany : (e.nodes.set X (n.setSoloFlag true)).any (fun x => x.2.solo) = true := by
    rw [List.any_eq_true]
    exact ⟨(X, n.setSoloFlag true), Obj.mem_of_get _ _ _ (Obj.get_set_self _ _ _), rfl⟩
  refine ⟨e', hok, hk.trans hkeys, ?_, ?_⟩
  · refine ⟨(n.setSoloFlag true).setVolMute false, ?_, rfl⟩
    rw [hget X, Obj.get_set_self, hany]
    rfl
  · intro Y hY hne
    obtain ⟨m, hm⟩ := Obj.get_of_mem_keys e.nodes Y (hkeys ▸ hY)
    have hms : m.solo = false := hsolo (Y, m) (Obj.mem_of_get _ _ _ hm)
    refine ⟨m.setVolMute true, ?_, rfl⟩
    rw [hget Y, Obj.get_set_ne _ _ _ _ hne, hm, hany]
    simp [hms]

/-- Witness for C6: the table after `ensure`, with kick and clap muted, and X = snare. -/
theorem setSolo_true_mutes_others_witness :
    ∃ e', setSolo { ready := true, scheduled := [],
                    nodes := (ensureNodes.set "kick"
                        { synth := .tonal, vol := { mute := true, volume := 0 }, mute := false, solo := false }).set
                      "clap" { synth := .noiseBurst, vol := { mute := true, volume := -6 }, mute := false, solo := false } }
                  "snare" true = .ok e' ∧ e'.nodes.keys = instrumentKeys ∧
      (∃ n, e'.nodes.get "snare" = some n ∧ n.vol.mute = false) ∧
      ∀ Y ∈ instrumentKeys, Y ≠ "snare" → ∃ n, e'.nodes.get Y = some n ∧ n.vol.mute = true :=
  setSolo_true_mutes_others _ "snare" (by decide) (by decide) (by decide)

/-! ## Instrument ids that are not in the table -/

/-- The function `trigger` tests its node: an id that is not in the table changes nothing. -/
theorem trigger_unknown_id (e : Engine) (now : ℚ) (which : String) (time : Option ℚ)
    (h : e.nodes.get which = none) : trigger e now which time = .ok e := by
  simp [trigger, h]

/-- The function `setVolume` tests its node: an id that is not in the table changes nothing. -/
theorem setVolume_unknown_id (e : Engine) (key : String) (db : Int)
    (h : e.nodes.get key = none) : setVolume e key db = .ok e := by
  simp [setVolume, h]

/-- C9: on the empty table that precedes `ensure`, and on the full table with an
id that is not an instrument, `trigger` and `setVolume` return the engine
unchanged, while `setMute` and `setSolo` raise a `TypeError`. -/
theorem unknown_id_setMute_setSolo_raise :
    trigger Engine.initial 1 "kick" (some 2) = .ok Engine.initial ∧
    setVolume Engine.initial "kick" (-12) = .ok Engine.initial ∧
    setMute Engine.initial "kick" true = .error .typeError ∧
    setSolo Engine.initial "kick" true = .error .typeError ∧
    setMute (ensure Engine.initial) "cowbell" true = .error .typeError ∧
    setSolo (ensure Engine.initial) "cowbell" true = .error .typeError := by
  refine ⟨?_, ?_, ?_, ?_, ?_, ?_⟩ <;> rfl

/-! ## Tempo change while running -/

/-- C3: after `togglePlay()` from the initial state and a change of bpm to 120,
`playing` is still true and `currentStep` is unchanged, but the sequence that was
in `playerRef` has been disposed, `playerRef` is null, and no step can fire. -/
theorem setBpm_while_running_disposes_sequence :
    (togglePlay App.initial).playing = true ∧
    (togglePlay App.initial).playerRef =
      some { pattern := defaultPattern, events := List.range 16, subdivision := "16n" } ∧
    (setBpm (togglePlay App.initial) 120).playing = true ∧
    (setBpm (togglePlay App.initial) 120).currentStep = (togglePlay App.initial).currentStep ∧
    (setBpm (togglePlay App.initial) 120).transportBpm = 120 ∧
    (setBpm (togglePlay App.initial) 120).playerRef = none ∧
    (setBpm (togglePlay App.initial) 120).disposed =
      [{ pattern := defaultPattern, events := List.range 16, subdivision := "16n" }] ∧
    ∀ time step, fireStep (setBpm (togglePlay App.initial) 120) time step = none := by
  refine ⟨by decide, by decide, by decide, by decide, by decide, by decide, by decide, ?_⟩
  intro time step
  have h : (setBpm (togglePlay App.initial) 120).playerRef = none := by decide
  simp [fireStep, h]

/-! ## Array map with index -/

theorem length_mapIdxFrom {α β : Type} (f : Nat → α → β) (n : Nat) (xs : List α) :
    (mapIdxFrom f n xs).length = xs.length := by
  induction xs generalizing n with
  | nil => rfl
  | cons x xs ih => simp [mapIdxFrom, ih]

theorem getElem?_mapIdxFrom {α β : Type} (f : Nat → α → β) (n : Nat) (xs : List α) (j : Nat) :
    (mapIdxFrom f n xs)[j]? = (xs[j]?).map (f (n + j)) := by
  induction xs generalizing n j with
  | nil => simp [mapIdxFrom]
  | cons x xs ih =>
    cases j with
    | zero => simp [mapIdxFrom]
    | succ j =>
      simp only [mapIdxFrom, List.getElem?_cons_succ, ih]
      have : n + 1 + j = n + (j + 1) := by omega
      rw [this]

theorem mapIdxFrom_eq_self {α : Type} (f : Nat → α → α) (n : Nat) (xs : List α)
    (h : ∀ idx v, n ≤ idx → idx < n + xs.length → f idx v = v) : mapIdxFrom f n xs = xs := by
  induction xs generalizing n with
  | nil => rfl
  | cons x xs ih =>
    simp only [mapIdxFrom]
    rw [h n x (Nat.le_refl n) (by simp), ih (n + 1)]
    intro idx v h1 h2
    exact h idx v (by omega) (by simp only [List.length_cons]; omega)

theorem mapIdxFrom_index_only {α β γ : Type} (g : Nat → γ) (n : Nat) (xs : List α) (ys : List β)
    (h : xs.length = ys.length) :
    mapIdxFrom (fun i _ => g i) n xs = mapIdxFrom (fun i _ => g i) n ys := by
  induction xs generalizing n ys with
  | nil =>
    cases ys with
    | nil => rfl
    | cons y ys => simp at h
  | cons x xs ih =>
    cases ys with
    | nil => simp at h
    | cons y ys =>
      simp only [mapIdxFrom]
      rw [ih (n + 1) ys (by simpa using h)]

/-! ## Cell toggle -/

/-- C7: for a pattern `p` with key `k`, whose sequence is no longer than the loop
length `bars * 16`, and any integer `i`: `toggleCell(k, i)` returns a pattern with
the same keys, the same sequences for every other key and a sequence of the same
length for `k`, which agrees with the old one at every index other than `i` and is
negated at `i` when `i` is a valid index; when `i` is outside the sequence, and
so whenever `i < 0` or `i >= bars * 16`, the result equals `p`. -/
theorem toggleCell_flips_one_cell (p : Pattern) (k : String) (i : Int) (bars : Nat)
    (seq : List Bool) (hk : p.get k = some seq) (hlen : seq.length ≤ bars * STEPS) :
    ∃ p' seq', toggleCell p k i = .ok p' ∧ p'.keys = p.keys ∧
      (∀ k', k' ≠ k → p'.get k' = p.get k') ∧
      p'.get k = some seq' ∧ seq'.length = seq.length ∧
      (∀ j : Nat, (j : Int) ≠ i → seq'[j]? = seq[j]?) ∧
      (∀ j : Nat, (j : Int) = i → seq'[j]? = (seq[j]?).map (fun v => !v)) ∧
      ((i < 0 ∨ (seq.length : Int) ≤ i) → p' = p) ∧
      ((i < 0 ∨ ((bars * STEPS : Nat) : Int) ≤ i) → p' = p) := by
  have hnoop : (i < 0 ∨ (seq.length : Int) ≤ i) →
      p.set k (jsMap (fun idx v => if (idx : Int) = i then !v else v) seq) = p := by
    intro hi
    have hmap : jsMap (fun idx v => if (idx : Int) = i then !v else v) seq = seq := by
      apply mapIdxFrom_eq_self
      intro idx v _ h2
      have hne : ¬ ((idx : Int) = i) := by omega
      simp [hne]
    rw [hmap]
    exact Obj.set_get_self p k seq hk
  refine ⟨p.set k (jsMap (fun idx v => if (idx : Int) = i then !v else v) seq),
    jsMap (fun idx v => if (idx : Int) = i then !v else v) seq, ?_, ?_, ?_, ?_, ?_, ?_, ?_, hnoop, ?_⟩
  · simp only [toggleCell, hk]
  · exact Obj.keys_set_of_get p k _ seq hk
  · intro k' hne
    exact Obj.get_set_ne p k k' _ hne
  · exact Obj.get_set_self p k _
  · exact length_mapIdxFrom _ _ _
  · intro j hj
    rw [jsMap, getElem?_mapIdxFrom]
    cases seq[j]? with
    | none => rfl
    | some v => simp [hj]
  · intro j hj
    rw [jsMap, getElem?_mapIdxFrom]
    cases seq[j]? with
    | none => rfl
    | some v => simp [hj]
  · intro hi
    apply hnoop
    rcases hi with hi | hi
    · exact Or.inl hi
    · right
      have : (seq.length : Int) ≤ ((bars * STEPS : Nat) : Int) := by exact_mod_cast hlen
      omega

/-- Witness for C7: the default pattern with one bar, toggling kick at step 3. -/
theorem toggleCell_flips_one_cell_witness :
    ∃ p' seq', toggleCell defaultPattern "kick" 3 = .ok p' ∧ p'.keys = defaultPattern.keys ∧
      (∀ k', k' ≠ "kick" → p'.get k' = defaultPattern.get k') ∧
      p'.get "kick" = some seq' ∧
      seq'.length = ((List.range 16).map (fun i => decide (i = 0 ∨ i = 8))).length ∧
      (∀ j : Nat, (j : Int) ≠ 3 →
        seq'[j]? = ((List.range 16).map (fun i => decide (i = 0 ∨ i = 8)))[j]?) ∧
      (∀ j : Nat, (j : Int) = 3 →
        seq'[j]? = (((List.range 16).map (fun i => decide (i = 0 ∨ i = 8)))[j]?).map (fun v => !v)) ∧
      (((3 : Int) < 0 ∨ ((((List.range 16).map (fun i => decide (i = 0 ∨ i = 8))).length : Nat) : Int) ≤ 3) →
        p' = defaultPattern) ∧
      (((3 : Int) < 0 ∨ ((1 * STEPS : Nat) : Int) ≤ 3) → p' = defaultPattern) :=
  toggleCell_flips_one_cell defaultPattern "kick" 3 1
    ((List.range 16).map (fun i => decide (i = 0 ∨ i = 8))) (by decide) (by decide)

/-! ## The step callback -/

/-- The loop of the step callback over any list of instruments, from any list of
calls already made. -/
theorem stepTriggers_loop (pattern : Pattern) (time : ℚ) (step : Nat) (insts : List Instrument)
    (calls : List (String × ℚ)) (h : ∀ inst ∈ insts, ∃ seq, pattern.get inst.key = some seq) :
    insts.foldlM (fun calls inst =>
      match pattern.get inst.key with
      | none => (Except.error JsError.typeError : Except JsError (List (String × ℚ)))
      | some seq => if seq.getD step false then .ok (calls ++ [(inst.key, time)]) else .ok calls) calls
    = .ok (calls ++ ((insts.map Instrument.key).filter (fun k => pattern.cell k step)).map
        (fun k => (k, time))) := by
  induction insts generalizing calls with
  | nil => simp [List.foldlM, pure, Except.pure]
  | cons inst rest ih =>
    obtain ⟨seq, hseq⟩ := h inst (List.mem_cons_self _ _)
    have hrest : ∀ x ∈ rest, ∃ seq, pattern.get x.key = some seq :=
      fun x hx => h x (List.mem_cons_of_mem _ hx)
    rw [List.foldlM_cons]
    simp only [hseq]
    by_cases hc : seq.getD step false = true
    · have hcell : pattern.cell inst.key step = true := by
        simp only [Pattern.cell, hseq]
        exact hc
      simp only [hc, if_true]
      show List.foldlM _ _ rest = _
      rw [ih _ hrest]
      simp [List.filter_cons, hcell]
    · have hcell : pattern.cell inst.key step = false := by simpa [Pattern.cell, hseq] using hc
      simp only [hc]
      show List.foldlM _ _ rest = _
      rw [ih _ hrest]
      simp [List.filter_cons, hcell]

/-- C8: for a pattern holding a sequence for each of the six instruments, any
step `s` and time `t`, the `engine.trigger` calls of the step callback are exactly
the `INSTRUMENTS` keys, in declaration order, whose cell `pattern[k][s]` is true,
each with the time `t`; a key whose cell is false or absent gets no call, and no
key gets two. -/
theorem stepTriggers_exact (pattern : Pattern) (time : ℚ) (step : Nat)
    (h : ∀ k ∈ instrumentKeys, (pattern.get k).isSome = true) :
    ∃ calls, stepTriggers pattern time step = .ok calls ∧
      calls = ((["kick", "snare", "chh", "ohh", "clap", "perc"].filter
        (fun k => pattern.cell k step)).map (fun k => (k, time))) ∧
      (∀ k t, (k, t) ∈ calls ↔ (k ∈ instrumentKeys ∧ pattern.cell k step = true ∧ t = time)) ∧
      (calls.map Prod.fst).Nodup := by
  have hloop := stepTriggers_loop pattern time step INSTRUMENTS []
    (fun inst hinst => Option.isSome_iff_exists.1 (h inst.key (List.mem_map_of_mem _ hinst)))
  have hkeys : INSTRUMENTS.map Instrument.key = ["kick", "snare", "chh", "ohh", "clap", "perc"] := by
    decide
  rw [hkeys, List.nil_append] at hloop
  refine ⟨_, hloop, rfl, ?_, ?_⟩
  · intro k t
    simp only [List.mem_map, List.mem_filter, instrumentKeys, hkeys, Prod.mk.injEq]
    constructor
    · rintro ⟨a, ⟨ha, hc⟩, rfl, rfl⟩
      exact ⟨ha, hc, rfl⟩
    · rintro ⟨ha, hc, rfl⟩
      exact ⟨k, ⟨ha, hc⟩, rfl, rfl⟩
  · rw [List.map_map]
    have hid : (Prod.fst ∘ fun k : String => (k, time)) = id := rfl
    rw [hid, List.map_id]
    exact List.Nodup.filter _ (by decide)

/-- Witness for C8: the default pattern at step 4 and time 3/2 triggers snare,
closed hat and clap. -/
theorem stepTriggers_exact_witness :
    ∃ calls, stepTriggers defaultPattern (3 / 2) 4 = .ok calls ∧
      calls = ((["kick", "snare", "chh", "ohh", "clap", "perc"].filter
        (fun k => defaultPattern.cell k 4)).map (fun k => (k, (3 / 2 : ℚ)))) ∧
      (∀ k t, (k, t) ∈ calls ↔
        (k ∈ instrumentKeys ∧ defaultPattern.cell k 4 = true ∧ t = (3 / 2 : ℚ))) ∧
      (calls.map Prod.fst).Nodup :=
  stepTriggers_exact defaultPattern (3 / 2) 4 (by decide)

/-! ## Randomize -/

/-- The thresholds of the code are the probabilities of the specification. -/
theorem baseProb_eq (k : String) (i : Nat) : baseProb k i = randomizeProbability k i := by
  unfold baseProb randomizeProbability
  split_ifs <;> norm_num

/-- The result of `randomize` on a pattern that holds the six sequences. -/
theorem randomize_eq (rand : String → Nat → ℚ) (p : Pattern) (s1 s2 s3 s4 s5 s6 : List Bool)
    (h1 : p.get "kick" = some s1) (h2 : p.get "snare" = some s2) (h3 : p.get "chh" = some s3)
    (h4 : p.get "ohh" = some s4) (h5 : p.get "clap" = some s5) (h6 : p.get "perc" = some s6) :
    randomize rand p = .ok
      [ ("kick", jsMap (fun i _ => decide (rand "kick" i < baseProb "kick" i)) s1),
        ("snare", jsMap (fun i _ => decide (rand "snare" i < baseProb "snare" i)) s2),
        ("chh", jsMap (fun i _ => decide (rand "chh" i < baseProb "chh" i)) s3),
        ("ohh", jsMap (fun i _ => decide (rand "ohh" i < baseProb "ohh" i)) s4),
        ("clap", jsMap (fun i _ => decide (rand "clap" i < baseProb "clap" i)) s5),
        ("perc", jsMap (fun i _ => decide (rand "perc" i < baseProb "perc" i)) s6) ] := by
  simp only [randomize, INSTRUMENTS, List.foldlM_cons, List.foldlM_nil, h1, h2, h3, h4, h5, h6]
  rfl

theorem getD_jsMap_index_only (g : Nat → Bool) (seq : List Bool) (i : Nat) (hi : i < seq.length) :
    (jsMap (fun i _ => g i) seq).getD i false = g i := by
  rw [List.getD_eq_getElem?_getD, jsMap, getElem?_mapIdxFrom, List.getElem?_eq_getElem hi]
  simp

/-- What `randomize` writes for one instrument. -/
theorem randomize_cells (rand : String → Nat → ℚ) (k : String) (seq : List Bool) :
    (jsMap (fun i _ => decide (rand k i < baseProb k i)) seq).length = seq.length ∧
    ∀ i, i < seq.length →
      ((jsMap (fun i _ => decide (rand k i < baseProb k i)) seq).getD i false = true ↔
        rand k i < randomizeProbability k i) := by
  refine ⟨length_mapIdxFrom _ _ _, ?_⟩
  intro i hi
  rw [getD_jsMap_index_only (fun i => decide (rand k i < baseProb k i)) seq i hi, baseProb_eq]
  simp

theorem get_length_eq {p q : Pattern} {k : String} {s : List Bool}
    (hp : p.get k = some s) (hq : (q.get k).map List.length = (p.get k).map List.length) :
    ∃ t, q.get k = some t ∧ t.length = s.length := by
  rw [hp] at hq
  cases hg : q.get k with
  | none => simp [hg] at hq
  | some t =>
    rw [hg] at hq
    exact ⟨t, rfl, by simpa using hq⟩

/-- C10: with the draws as an input, `randomize` on a pattern `p` holding the six
sequences returns the same pattern as on any `q` with the same sequence lengths;
the result has the six keys, each sequence as long as the prior one, and cell
`(k, i)` is true exactly when its draw is below the probability of the
specification (1/4 kick, 1/10 or 1/20 snare, 1/5 otherwise); kick is above the
flat default and snare is higher on downbeats than off them. -/
theorem randomize_stateless (rand : String → Nat → ℚ) (p q : Pattern)
    (hp : ∀ k ∈ instrumentKeys, (p.get k).isSome = true)
    (hq : ∀ k ∈ instrumentKeys, (q.get k).map List.length = (p.get k).map List.length) :
    ∃ np, randomize rand p = .ok np ∧ randomize rand q = .ok np ∧
      np.keys = instrumentKeys ∧
      (∀ k ∈ instrumentKeys, ∃ seq seq', p.get k = some seq ∧ np.get k = some seq' ∧
        seq'.length = seq.length ∧
        ∀ i, i < seq.length → (seq'.getD i false = true ↔ rand k i < randomizeProbability k i)) ∧
      (∀ i, (1 / 5 : ℚ) < randomizeProbability "kick" i) ∧
      (∀ i j, i % 4 = 0 → j % 4 ≠ 0 →
        randomizeProbability "snare" j < randomizeProbability "snare" i) := by
  obtain ⟨s1, h1⟩ := Option.isSome_iff_exists.1 (hp "kick" (by decide))
  obtain ⟨s2, h2⟩ := Option.isSome_iff_exists.1 (hp "snare" (by decide))
  obtain ⟨s3, h3⟩ := Option.isSome_iff_exists.1 (hp "chh" (by decide))
  obtain ⟨s4, h4⟩ := Option.isSome_iff_exists.1 (hp "ohh" (by decide))
  obtain ⟨s5, h5⟩ := Option.isSome_iff_exists.1 (hp "clap" (by decide))
  obtain ⟨s6, h6⟩ := Option.isSome_iff_exists.1 (hp "perc" (by decide))
  obtain ⟨t1, g1, l1⟩ := get_length_eq h1 (hq "kick" (by decide))
  obtain ⟨t2, g2, l2⟩ := get_length_eq h2 (hq "snare" (by decide))
  obtain ⟨t3, g3, l3⟩ := get_length_eq h3 (hq "chh" (by decide))
  obtain ⟨t4, g4, l4⟩ := get_length_eq h4 (hq "ohh" (by decide))
  obtain ⟨t5, g5, l5⟩ := get_length_eq h5 (hq "clap" (by decide))
  obtain ⟨t6, g6, l6⟩ := get_length_eq h6 (hq "perc" (by decide))
  refine ⟨_, randomize_eq rand p s1 s2 s3 s4 s5 s6 h1 h2 h3 h4 h5 h6, ?_, rfl, ?_, ?_, ?_⟩
  · rw [randomize_eq rand q t1 t2 t3 t4 t5 t6 g1 g2 g3 g4 g5 g6]
    simp only [jsMap]
    rw [mapIdxFrom_index_only (fun i => decide (rand "kick" i < baseProb "kick" i)) 0 t1 s1 l1,
      mapIdxFrom_index_only (fun i => decide (rand "snare" i < baseProb "snare" i)) 0 t2 s2 l2,
      mapIdxFrom_index_only (fun i => decide (rand "chh" i < baseProb "chh" i)) 0 t3 s3 l3,
      mapIdxFrom_index_only (fun i => decide (rand "ohh" i < baseProb "ohh" i)) 0 t4 s4 l4,
      mapIdxFrom_index_only (fun i => decide (rand "clap" i < baseProb "clap" i)) 0 t5 s5 l5,
      mapIdxFrom_index_only (fun i => decide (rand "perc" i < baseProb "perc" i)) 0 t6 s6 l6]
  · intro k hk
    have hk' : k = "kick" ∨ k = "snare" ∨ k = "chh" ∨ k = "ohh" ∨ k = "clap" ∨ k = "perc" := by
      simpa [instrumentKeys, INSTRUMENTS] using hk
    rcases hk' with rfl | rfl | rfl | rfl | rfl | rfl
    · exact ⟨s1, _, h1, rfl, (randomize_cells rand _ s1).1, (randomize_cells rand _ s1).2⟩
    · exact ⟨s2, _, h2, rfl, (randomize_cells rand _ s2).1, (randomize_cells rand _ s2).2⟩
    · exact ⟨s3, _, h3, rfl, (randomize_cells rand _ s3).1, (randomize_cells rand _ s3).2⟩
    · exact ⟨s4, _, h4, rfl, (randomize_cells rand _ s4).1, (randomize_cells rand _ s4).2⟩
    · exact ⟨s5, _, h5, rfl, (randomize_cells rand _ s5).1, (randomize_cells rand _ s5).2⟩
    · exact ⟨s6, _, h6, rfl, (randomize_cells rand _ s6).1, (randomize_cells rand _ s6).2⟩
  · intro i
    simp only [randomizeProbability]
    norm_num
  · intro i j hi hj
    have hs : ¬ ("snare" = "kick") := by decide
    simp only [randomizeProbability, hi, hj, hs, if_true, if_false]
    norm_num

/-- Witness for C10: the default pattern and the pattern after toggling kick at
step 3, with the draw `(i mod 10) / 10` for every instrument. -/
theorem randomize_stateless_witness :
    ∃ np, randomize (fun _ i => ((i % 10 : Nat) : ℚ) / 10) defaultPattern = .ok np ∧
      randomize (fun _ i => ((i % 10 : Nat) : ℚ) / 10) (setCell defaultPattern "kick" 3 true) = .ok np ∧
      np.keys = instrumentKeys ∧
      (∀ k ∈ instrumentKeys, ∃ seq seq', defaultPattern.get k = some seq ∧ np.get k = some seq' ∧
        seq'.length = seq.length ∧
        ∀ i, i < seq.length →
          (seq'.getD i false = true ↔ ((i % 10 : Nat) : ℚ) / 10 < randomizeProbability k i)) ∧
      (∀ i, (1 / 5 : ℚ) < randomizeProbability "kick" i) ∧
      (∀ i j, i % 4 = 0 → j % 4 ≠ 0 →
        randomizeProbability "snare" j < randomizeProbability "snare" i) :=
  randomize_stateless (fun _ i => ((i % 10 : Nat) : ℚ) / 10) defaultPattern
    (setCell defaultPattern "kick" 3 true) (by decide) (by decide)

/-! ## Reachable component states -/

/-- A property that holds initially and is kept by every action holds after every run. -/
theorem App.run_induction (P : App → Prop)
    (hstep : ∀ s a s', P s → a.InRange → s.step a = some s' → P s') :
    ∀ (as : List Action) (s0 s : App), P s0 → (∀ a ∈ as, a.InRange) → s0.run as = some s → P s := by
  intro as
  induction as with
  | nil =>
    intro s0 s h0 _ hrun
    simp only [App.run, Option.some.injEq] at hrun
    exact hrun ▸ h0
  | cons a rest ih =>
    intro s0 s h0 hr hrun
    simp only [App.run] at hrun
    cases hs : s0.step a with
    | none => simp [hs] at hrun
    | some s1 =>
      rw [hs] at hrun
      exact ih s1 s (hstep s0 a s1 h0 (hr a (List.mem_cons_self _ _)) hs)
        (fun x hx => hr x (List.mem_cons_of_mem _ hx)) hrun

theorem togglePlay_pattern (s : App) :
    (togglePlay s).pattern = s.pattern ∧ (togglePlay s).bars = s.bars := by
  unfold togglePlay
  split <;> exact ⟨rfl, rfl⟩

theorem setBpm_pattern (s : App) (b : Int) :
    (setBpm s b).pattern = s.pattern ∧ (setBpm s b).bars = s.bars := by
  unfold setBpm
  split <;> exact ⟨rfl, rfl⟩

theorem fireStep_eq (s s' : App) (time : ℚ) (step : Nat) (h : fireStep s time step = some s') :
    ∃ q, s.playerRef = some q ∧ step ∈ q.events ∧ s'.currentStep = step ∧
      s'.pattern = s.pattern ∧ s'.bars = s.bars ∧ s'.playing = s.playing ∧
      s'.playerRef = s.playerRef := by
  unfold fireStep at h
  cases hq : s.playerRef with
  | none => simp [hq] at h
  | some q =>
    simp only [hq] at h
    by_cases hc : s.transportStarted = true ∧ step ∈ q.events
    · rw [if_pos hc] at h
      cases hcalls : stepTriggers q.pattern time step with
      | error err => simp [hcalls] at h
      | ok calls =>
        simp only [hcalls, Option.some.injEq] at h
        subst h
        exact ⟨q, rfl, hc.2, rfl, rfl, rfl, rfl, rfl⟩
    · rw [if_neg hc] at h
      exact absurd h (by simp)

theorem defaultPattern_shape :
    ∀ k ∈ instrumentKeys, ∃ seq, defaultPattern.get k = some seq ∧ seq.length = STEPS := by
  have h : ∀ k ∈ instrumentKeys, (defaultPattern.get k).map List.length = some STEPS := by decide
  intro k hk
  have hk' := h k hk
  cases hg : defaultPattern.get k with
  | none => simp [hg] at hk'
  | some seq =>
    rw [hg] at hk'
    exact ⟨seq, rfl, by simpa using hk'⟩

theorem toggleCell_eq (p p' : Pattern) (k : String) (i : Int) (h : toggleCell p k i = .ok p') :
    ∃ seq, p.get k = some seq ∧
      p' = p.set k (jsMap (fun idx v => if (idx : Int) = i then !v else v) seq) := by
  unfold toggleCell at h
  cases hk : p.get k with
  | none => simp [hk] at h
  | some seq =>
    simp only [hk, Except.ok.injEq] at h
    exact ⟨seq, rfl, h.symm⟩

theorem patternShape_step (s : App) (a : Action) (s' : App)
    (hs : PatternShape s) (ha : a.InRange) (h : s.step a = some s') : PatternShape s' := by
  obtain ⟨hkeys, hlen, hb1, hb4⟩ := hs
  cases a with
  | togglePlay =>
    simp only [App.step, Option.some.injEq] at h
    subst h
    unfold PatternShape
    rw [(togglePlay_pattern s).1, (togglePlay_pattern s).2]
    exact ⟨hkeys, hlen, hb1, hb4⟩
  | setBpm b =>
    simp only [App.step, Option.some.injEq] at h
    subst h
    unfold PatternShape
    rw [(setBpm_pattern s b).1, (setBpm_pattern s b).2]
    exact ⟨hkeys, hlen, hb1, hb4⟩
  | setBars b =>
    simp only [App.step, Option.some.injEq] at h
    subst h
    exact ⟨hkeys, hlen, ha.1, ha.2⟩
  | fire time step =>
    simp only [App.step] at h
    obtain ⟨q, _, _, _, hp, hb, _, _⟩ := fireStep_eq s s' time step h
    unfold PatternShape
    rw [hp, hb]
    exact ⟨hkeys, hlen, hb1, hb4⟩
  | toggleCell k i =>
    simp only [App.step] at h
    cases ht : toggleCell s.pattern k i with
    | error err => simp [ht] at h
    | ok p' =>
      simp only [ht, Option.some.injEq] at h
      subst h
      obtain ⟨seq, hk, rfl⟩ := toggleCell_eq _ _ _ _ ht
      refine ⟨?_, ?_, hb1, hb4⟩
      · exact (Obj.keys_set_of_get _ _ _ _ hk).trans hkeys
      · intro k' hk'
        by_cases hkk : k' = k
        · subst hkk
          obtain ⟨seq0, h0, hl0⟩ := hlen k' hk'
          rw [hk] at h0
          cases h0
          exact ⟨_, Obj.get_set_self _ _ _, (length_mapIdxFrom _ _ _).trans hl0⟩
        · obtain ⟨seq0, h0, hl0⟩ := hlen k' hk'
          exact ⟨seq0, (Obj.get_set_ne _ _ _ _ hkk).trans h0, hl0⟩
  | clearAll =>
    simp only [App.step, Option.some.injEq] at h
    subst h
    have hkeys' : defaultPattern.keys = instrumentKeys := by decide
    exact ⟨hkeys', defaultPattern_shape, hb1, hb4⟩
  | randomize rand =>
    simp only [App.step] at h
    obtain ⟨s1, h1, l1⟩ := hlen "kick" (by decide)
    obtain ⟨s2, h2, l2⟩ := hlen "snare" (by decide)
    obtain ⟨s3, h3, l3⟩ := hlen "chh" (by decide)
    obtain ⟨s4, h4, l4⟩ := hlen "ohh" (by decide)
    obtain ⟨s5, h5, l5⟩ := hlen "clap" (by decide)
    obtain ⟨s6, h6, l6⟩ := hlen "perc" (by decide)
    rw [randomize_eq rand s.pattern s1 s2 s3 s4 s5 s6 h1 h2 h3 h4 h5 h6] at h
    simp only [Option.some.injEq] at h
    subst h
    refine ⟨rfl, ?_, hb1, hb4⟩
    intro k hk
    have hk' : k = "kick" ∨ k = "snare" ∨ k = "chh" ∨ k = "ohh" ∨ k = "clap" ∨ k = "perc" := by
      simpa [instrumentKeys, INSTRUMENTS] using hk
    rcases hk' with rfl | rfl | rfl | rfl | rfl | rfl
    · exact ⟨_, rfl, (length_mapIdxFrom _ _ _).trans l1⟩
    · exact ⟨_, rfl, (length_mapIdxFrom _ _ _).trans l2⟩
    · exact ⟨_, rfl, (length_mapIdxFrom _ _ _).trans l3⟩
    · exact ⟨_, rfl, (length_mapIdxFrom _ _ _).trans l4⟩
    · exact ⟨_, rfl, (length_mapIdxFrom _ _ _).trans l5⟩
    · exact ⟨_, rfl, (length_mapIdxFrom _ _ _).trans l6⟩

theorem patternShape_initial : PatternShape App.initial :=
  ⟨by decide, defaultPattern_shape, by decide, by decide⟩

theorem transportShape_initial : TransportShape App.initial := by
  refine ⟨fun _ => ⟨rfl, rfl⟩, fun h => ?_, fun q h => ?_, by decide, by decide⟩
  · exact absurd h (by decide)
  · exact absurd h (by simp [App.initial])

theorem transportShape_step (s : App) (a : Action) (s' : App)
    (hs : TransportShape s) (ha : a.InRange) (h : s.step a = some s') : TransportShape s' := by
  obtain ⟨hstop, hrun, hseq, hb1, hb4⟩ := hs
  cases a with
  | togglePlay =>
    simp only [App.step, Option.some.injEq] at h
    subst h
    unfold togglePlay
    by_cases hp : s.playing = true
    · rw [if_pos hp]
      refine ⟨fun _ => ⟨rfl, rfl⟩, fun h => ?_, fun q h => ?_, hb1, hb4⟩
      · exact absurd h (by simp)
      · exact absurd h (by simp)
    · rw [if_neg hp]
      refine ⟨fun h => ?_, fun _ => ?_, fun q h => ?_, hb1, hb4⟩
      · exact absurd h (by simp)
      · exact ⟨by simp, by simp⟩
      · simp only [Option.some.injEq] at h
        subst h
        refine ⟨?_, s.bars, hb1, hb4, rfl⟩
        simp only [List.length_range, loopLength, STEPS]
        have : 0 < s.bars * 16 := by omega
        exact_mod_cast this
  | setBpm b =>
    simp only [App.step, Option.some.injEq] at h
    subst h
    unfold setBpm
    by_cases hb : b = s.bpm
    · rw [if_pos hb]
      exact ⟨hstop, hrun, hseq, hb1, hb4⟩
    · rw [if_neg hb]
      refine ⟨fun h => ⟨(hstop h).1, rfl⟩, hrun, fun q h => ?_, hb1, hb4⟩
      exact absurd h (by simp)
  | setBars b =>
    simp only [App.step, Option.some.injEq] at h
    subst h
    exact ⟨hstop, hrun, hseq, ha.1, ha.2⟩
  | fire time step =>
    simp only [App.step] at h
    obtain ⟨q, hq, hmem, hcs, _, hb, hpl, hpr⟩ := fireStep_eq s s' time step h
    obtain ⟨_, b, hb1', hb4', hev⟩ := hseq q hq
    have hlt : step < b * STEPS := by
      rw [hev] at hmem
      exact List.mem_range.1 hmem
    have hlt64 : step < 4 * 16 := by
      simp only [STEPS] at hlt
      omega
    refine ⟨fun hp => ?_, fun _ => ?_, fun q' hq' => ?_, hb ▸ hb1, hb ▸ hb4⟩
    · rw [hpl] at hp
      have := (hstop hp).2
      rw [hq] at this
      exact absurd this (by simp)
    · rw [hcs]
      exact ⟨by exact_mod_cast Nat.zero_le step, by exact_mod_cast hlt64⟩
    · rw [hpr, hq] at hq'
      simp only [Option.some.injEq] at hq'
      subst hq'
      refine ⟨?_, b, hb1', hb4', hev⟩
      rw [hcs, hev, List.length_range]
      exact_mod_cast hlt
  | toggleCell k i =>
    simp only [App.step] at h
    cases ht : toggleCell s.pattern k i with
    | error err => simp [ht] at h
    | ok p' =>
      simp only [ht, Option.some.injEq] at h
      subst h
      exact ⟨hstop, hrun, hseq, hb1, hb4⟩
  | clearAll =>
    simp only [App.step, Option.some.injEq] at h
    subst h
    exact ⟨hstop, hrun, hseq, hb1, hb4⟩
  | randomize rand =>
    simp only [App.step] at h
    cases ht : randomize rand s.pattern with
    | error err => simp [ht] at h
    | ok p' =>
      simp only [ht, Option.some.injEq] at h
      subst h
      exact ⟨hstop, hrun, hseq, hb1, hb4⟩

/-! ## Pattern length -/

/-- C2, as stated, fails: after the bars slider moves to 2 the kick sequence still
has 16 cells while `bars * 16` is 32. -/
theorem pattern_length_not_bars_times_16 :
    Action.InRange (.setBars 2) ∧
    (App.initial.run [.setBars 2]).map
      (fun s => ((s.pattern.get "kick").map List.length, s.bars * 16)) = some (some 16, 32) ∧
    ¬ (∀ (as : List Action) (s : App), (∀ a ∈ as, a.InRange) → App.initial.run as = some s →
        ∀ k ∈ instrumentKeys, ∀ seq, s.pattern.get k = some seq → seq.length = s.bars * 16) := by
  refine ⟨by decide, by decide, ?_⟩
  intro hall
  have hr : ∀ a ∈ [Action.setBars 2], a.InRange := by decide
  have := hall [.setBars 2] (setBars App.initial 2) hr rfl "kick" (by decide)
    ((List.range 16).map (fun i => decide (i = 0 ∨ i = 8))) (by decide)
  exact absurd this (by decide)

/-- C2, amended: in every state reached from the initial state by any actions
(toggleCell, randomize, clearAll, bars changes within 1..4, and the transport
actions), the pattern has exactly the six instrument keys and every instrument's
sequence has exactly 16 cells, whatever `bars` is; the length is `bars * 16`
exactly when `bars = 1`. -/
theorem pattern_length_is_steps (as : List Action) (s : App)
    (hr : ∀ a ∈ as, a.InRange) (h : App.initial.run as = some s) :
    s.pattern.keys = instrumentKeys ∧ 1 ≤ s.bars ∧ s.bars ≤ 4 ∧
    ∀ k ∈ instrumentKeys, ∃ seq, s.pattern.get k = some seq ∧ seq.length = 16 ∧
      (seq.length = s.bars * 16 ↔ s.bars = 1) := by
  obtain ⟨hkeys, hlen, hb1, hb4⟩ :=
    App.run_induction PatternShape patternShape_step as App.initial s patternShape_initial hr h
  refine ⟨hkeys, hb1, hb4, ?_⟩
  intro k hk
  obtain ⟨seq, hg, hl⟩ := hlen k hk
  refine ⟨seq, hg, hl, ?_⟩
  rw [hl]
  simp only [STEPS]
  omega

/-- Witness for C2: bars set to 3, the snare cell 0 toggled, a clear, and the perc
cell 14 toggled. -/
theorem pattern_length_is_steps_witness :
    App.exampleEdited.pattern.keys = instrumentKeys ∧
    1 ≤ App.exampleEdited.bars ∧ App.exampleEdited.bars ≤ 4 ∧
    ∀ k ∈ instrumentKeys, ∃ seq, App.exampleEdited.pattern.get k = some seq ∧
      seq.length = 16 ∧ (seq.length = App.exampleEdited.bars * 16 ↔ App.exampleEdited.bars = 1) :=
  pattern_length_is_steps
    [.setBars 3, .toggleCell "snare" 0, .clearAll, .toggleCell "perc" 14] App.exampleEdited
    (by decide) (by decide)

/-! ## Current step -/

/-- C4, as stated, fails: with two bars, play, the callback for step 16, then the
bars slider back to 1, the transport is playing with `currentStep = 16`, which is
not below `bars * 16 = 16`. -/
theorem currentStep_not_below_loopLength :
    (∀ a ∈ [Action.setBars 2, Action.togglePlay, Action.fire 1 16, Action.setBars 1], a.InRange) ∧
    (App.initial.run [.setBars 2, .togglePlay, .fire 1 16, .setBars 1]).map
      (fun s => (s.playing, s.currentStep, s.bars * 16)) = some (true, 16, 16) ∧
    ¬ (∀ (as : List Action) (s : App), (∀ a ∈ as, a.InRange) → App.initial.run as = some s →
        s.playing = true → 0 ≤ s.currentStep ∧ s.currentStep < ((s.bars * 16 : Nat) : Int)) := by
  refine ⟨by decide, by decide, ?_⟩
  intro hall
  have := hall [.setBars 2, .togglePlay, .fire 1 16, .setBars 1] App.exampleRunning
    (by decide) (by decide) (by decide)
  exact absurd this.2 (by decide)

/-- C4, amended: in every state reached from the initial state by any actions
(togglePlay, bars changes within 1..4, bpm changes, step callbacks of the sequence
in `playerRef`, and the pattern actions), `currentStep` is -1 whenever `playing`
is false; whenever `playing` is true it satisfies `0 <= currentStep < 4 * 16`, and
while a sequence is in `playerRef` it is below that sequence's own length, which
is `b * 16` for the `b` in 1..4 the sequence was built with; `togglePlay` from
stopped sets it to 0 and from running resets it to -1. -/
theorem currentStep_bounds (as : List Action) (s : App)
    (hr : ∀ a ∈ as, a.InRange) (h : App.initial.run as = some s) :
    (s.playing = false → s.currentStep = -1) ∧
    (s.playing = true → 0 ≤ s.currentStep ∧ s.currentStep < 4 * 16) ∧
    (∀ q, s.playerRef = some q → s.playing = true ∧ s.currentStep < q.events.length ∧
      ∃ b, 1 ≤ b ∧ b ≤ 4 ∧ q.events.length = b * 16) ∧
    (s.playing = false → (togglePlay s).playing = true ∧ (togglePlay s).currentStep = 0) ∧
    (s.playing = true → (togglePlay s).playing = false ∧ (togglePlay s).currentStep = -1) := by
  obtain ⟨hstop, hrun, hseq, hb1, hb4⟩ :=
    App.run_induction TransportShape transportShape_step as App.initial s transportShape_initial hr h
  refine ⟨fun hp => (hstop hp).1, hrun, ?_, ?_, ?_⟩
  · intro q hq
    obtain ⟨hlt, b, h1, h4, hev⟩ := hseq q hq
    refine ⟨?_, hlt, b, h1, h4, ?_⟩
    · cases hp : s.playing with
      | true => rfl
      | false =>
        have := (hstop hp).2
        rw [hq] at this
        exact absurd this (by simp)
    · rw [hev, List.length_range]
      rfl
  · intro hp
    simp [togglePlay, hp]
  · intro hp
    simp [togglePlay, hp]

/-- Witness for C4: two bars, play, the callback for step 16, bars back to 1. -/
theorem currentStep_bounds_witness :
    (App.exampleRunning.playing = false → App.exampleRunning.currentStep = -1) ∧
    (App.exampleRunning.playing = true →
      0 ≤ App.exampleRunning.currentStep ∧ App.exampleRunning.currentStep < 4 * 16) ∧
    (∀ q, App.exampleRunning.playerRef = some q → App.exampleRunning.playing = true ∧
      App.exampleRunning.currentStep < q.events.length ∧
      ∃ b, 1 ≤ b ∧ b ≤ 4 ∧ q.events.length = b * 16) ∧
    (App.exampleRunning.playing = false →
      (togglePlay App.exampleRunning).playing = true ∧
      (togglePlay App.exampleRunning).currentStep = 0) ∧
    (App.exampleRunning.playing = true →
      (togglePlay App.exampleRunning).playing = false ∧
      (togglePlay App.exampleRunning).currentStep = -1) :=
  currentStep_bounds [.setBars 2, .togglePlay, .fire 1 16, .setBars 1] App.exampleRunning
    (by decide) (by decide)

/-! ## Mute and solo over a sequence of calls -/

/-- The test `Object.values(nodes).some(x => x.solo)` on a table whose keys are
distinct reads the same as the test over the keys. -/
theorem any_solo_eq_keys_any (o : Obj Node) (f : String → Bool) (hnd : o.keys.Nodup)
    (h : ∀ v ∈ o.keys, ∃ n, o.get v = some n ∧ n.solo = f v) :
    o.any (fun x => x.2.solo) = o.keys.any f := by
  induction o with
  | nil => rfl
  | cons hd tl ih =>
    obtain ⟨k, n⟩ := hd
    simp only [Obj.keys, List.map_cons, List.nodup_cons] at hnd
    have hhead : n.solo = f k := by
      obtain ⟨n', hg, hs⟩ := h k (by simp [Obj.keys])
      simp only [Obj.get, if_true, Option.some.injEq] at hg
      rw [hg]
      exact hs
    have htl : tl.any (fun x => x.2.solo) = (Obj.keys tl).any f := by
      apply ih hnd.2
      intro v hv
      obtain ⟨n', hg, hs⟩ := h v (by simp only [Obj.keys, List.map_cons]; exact List.mem_cons_of_mem _ hv)
      have hne : ¬ k = v := by
        intro hkv
        subst hkv
        exact hnd.1 hv
      simp only [Obj.get, hne, if_false] at hg
      exact ⟨n', hg, hs⟩
    simp only [List.any_cons, Obj.keys, List.map_cons, hhead]
    simp only [Obj.keys] at htl
    rw [htl]

/-- The engine tracks the folds of the call sequence: from any table of the six
voices whose solo flags and applied mutes are described by `sol` and `ms`, a
sequence of calls on the six voices succeeds and leaves a table described by the
folds from `sol` and `ms`. -/
theorem runCalls_track (cs : List MixCall) :
    ∀ (e : Engine) (sol : String → Bool) (ms : String → Option Bool),
      e.nodes.keys = instrumentKeys →
      (∀ v ∈ instrumentKeys, ∃ n, e.nodes.get v = some n ∧ n.solo = sol v ∧
        n.vol.mute = codeAppliedMute (ms v) (instrumentKeys.any sol) (sol v)) →
      (∀ c ∈ cs, c.id ∈ instrumentKeys) →
      ∃ e', e.runCalls cs = .ok e' ∧ e'.nodes.keys = instrumentKeys ∧
        ∀ v ∈ instrumentKeys, ∃ n, e'.nodes.get v = some n ∧
          n.solo = lastSoloFrom (sol v) cs v ∧
          n.vol.mute = codeAppliedMute (muteSinceSoloFrom (ms v) cs v)
            (instrumentKeys.any (fun k => lastSoloFrom (sol k) cs k)) (lastSoloFrom (sol v) cs v) := by
  induction cs with
  | nil =>
    intro e sol ms hkeys hst _
    exact ⟨e, rfl, hkeys, hst⟩
  | cons c rest ih =>
    intro e sol ms hkeys hst hids
    have hc : c.id ∈ instrumentKeys := hids c (List.mem_cons_self _ _)
    have hrest : ∀ x ∈ rest, x.id ∈ instrumentKeys := fun x hx => hids x (List.mem_cons_of_mem _ hx)
    cases c with
    | setMute id m =>
      obtain ⟨n, hn, hns, _⟩ := hst id hc
      obtain ⟨e1, hok, hk1, hself, hother⟩ := setMute_get e id m n hn
      have hst1 : ∀ v ∈ instrumentKeys, ∃ n', e1.nodes.get v = some n' ∧ n'.solo = sol v ∧
          n'.vol.mute = codeAppliedMute ((fun k => if id = k then some m else ms k) v)
            (instrumentKeys.any sol) (sol v) := by
        intro v hv
        by_cases hvid : id = v
        · subst hvid
          exact ⟨_, hself, hns, by simp [codeAppliedMute, Node.setVolMute]⟩
        · obtain ⟨n', hn', hs', hm'⟩ := hst v hv
          refine ⟨n', (hother v (fun h => hvid h.symm)).trans hn', hs', ?_⟩
          simp only [hvid, if_false]
          exact hm'
      obtain ⟨e', hrun, hk', hfin⟩ := ih e1 sol (fun k => if id = k then some m else ms k)
        (hk1.trans hkeys) hst1 hrest
      refine ⟨e', ?_, hk', ?_⟩
      · simp only [Engine.runCalls, Engine.applyCall, hok]
        exact hrun
      · intro v hv
        obtain ⟨n', hn', hs', hm'⟩ := hfin v hv
        exact ⟨n', hn', hs', hm'⟩
    | setSolo id so =>
      obtain ⟨n, hn, _, _⟩ := hst id hc
      obtain ⟨e1, hok, hk1, hget⟩ := setSolo_get e id so n hn
      have hkset : (e.nodes.set id (n.setSoloFlag so)).keys = instrumentKeys :=
        (Obj.keys_set_of_get _ _ _ _ hn).trans hkeys
      have hsolo1 : ∀ v ∈ instrumentKeys, ∃ n', (e.nodes.set id (n.setSoloFlag so)).get v = some n' ∧
          n'.solo = (fun k => if id = k then so else sol k) v := by
        intro v hv
        by_cases hvid : id = v
        · subst hvid
          exact ⟨_, Obj.get_set_self _ _ _, by simp [Node.setSoloFlag]⟩
        · obtain ⟨n', hn', hs', _⟩ := hst v hv
          refine ⟨n', (Obj.get_set_ne _ _ _ _ (fun h => hvid h.symm)).trans hn', ?_⟩
          simp only [hvid, if_false]
          exact hs'
      have hany : (e.nodes.set id (n.setSoloFlag so)).any (fun x => x.2.solo) =
          instrumentKeys.any (fun k => if id = k then so else sol k) := by
        have := any_solo_eq_keys_any (e.nodes.set id (n.setSoloFlag so))
          (fun k => if id = k then so else sol k) (hkset ▸ (by decide)) (hkset ▸ hsolo1)
        rw [this, hkset]
      have hst1 : ∀ v ∈ instrumentKeys, ∃ n', e1.nodes.get v = some n' ∧
          n'.solo = (fun k => if id = k then so else sol k) v ∧
          n'.vol.mute = codeAppliedMute ((fun _ => (none : Option Bool)) v)
            (instrumentKeys.any (fun k => if id = k then so else sol k))
            ((fun k => if id = k then so else sol k) v) := by
        intro v hv
        obtain ⟨n', hn', hs'⟩ := hsolo1 v hv
        refine ⟨_, by rw [hget v, hn']; rfl, ?_, ?_⟩
        · simpa [Node.setVolMute] using hs'
        · simp only [Node.setVolMute, codeAppliedMute, hany, hs']
          cases instrumentKeys.any (fun k => if id = k then so else sol k) <;> simp
      obtain ⟨e', hrun, hk', hfin⟩ := ih e1 (fun k => if id = k then so else sol k)
        (fun _ => none) (hk1.trans hkeys) hst1 hrest
      refine ⟨e', ?_, hk', ?_⟩
      · simp only [Engine.runCalls, Engine.applyCall, hok]
        exact hrun
      · intro v hv
        obtain ⟨n', hn', hs', hm'⟩ := hfin v hv
        exact ⟨n', hn', hs', hm'⟩

/-- C1, as stated, fails: with kick muted, soloing and then un-soloing snare leaves
kick with applied mute false although its explicit mute is true; and with snare
soloed, `setMute(kick, false)` leaves kick with applied mute false although
another voice is soloed and kick is not. -/
theorem applied_mute_not_spec_formula :
    appliedMute ((ensure Engine.initial).runCalls
        [.setMute "kick" true, .setSolo "snare" true, .setSolo "snare" false]) "kick" = some false ∧
    specEffectiveMute [.setMute "kick" true, .setSolo "snare" true, .setSolo "snare" false] "kick"
      = true ∧
    appliedMute ((ensure Engine.initial).runCalls
        [.setSolo "snare" true, .setMute "kick" false]) "kick" = some false ∧
    specEffectiveMute [.setSolo "snare" true, .setMute "kick" false] "kick" = true ∧
    ¬ (∀ cs : List MixCall, (∀ c ∈ cs, c.id ∈ instrumentKeys) → ∀ v ∈ instrumentKeys,
        appliedMute ((ensure Engine.initial).runCalls cs) v = some (specEffectiveMute cs v)) := by
  refine ⟨by decide, by decide, by decide, by decide, ?_⟩
  intro hall
  have := hall [.setMute "kick" true, .setSolo "snare" true, .setSolo "snare" false]
    (by decide) "kick" (by decide)
  exact absurd this (by decide)

/-- C1, amended: for every sequence of `setMute` and `setSolo` calls on the six
voices, from the table `ensure` builds, every call succeeds, and afterwards each
voice's solo flag is the value most recently passed to `setSolo` for it, and its
applied mute is the value of the latest `setMute` for it when no `setSolo` call
has followed that call, and otherwise `(some voice is soloed) AND (it is not
soloed)`. -/
theorem applied_mute_after_calls (cs : List MixCall)
    (hids : ∀ c ∈ cs, c.id ∈ instrumentKeys) :
    ∃ e, (ensure Engine.initial).runCalls cs = .ok e ∧ e.nodes.keys = instrumentKeys ∧
      ∀ v ∈ instrumentKeys, ∃ n, e.nodes.get v = some n ∧ n.solo = lastSolo cs v ∧
        n.vol.mute = codeAppliedMute (muteSinceSolo cs v)
          (instrumentKeys.any (fun k => lastSolo cs k)) (lastSolo cs v) := by
  have hinit : ∀ v ∈ instrumentKeys, ∃ n, (ensure Engine.initial).nodes.get v = some n ∧
      n.solo = (fun _ => false) v ∧
      n.vol.mute = codeAppliedMute ((fun _ => (none : Option Bool)) v)
        (instrumentKeys.any (fun _ => false)) ((fun _ => false) v) := by
    intro v hv
    have hv' : v = "kick" ∨ v = "snare" ∨ v = "chh" ∨ v = "ohh" ∨ v = "clap" ∨ v = "perc" := by
      simpa [instrumentKeys, INSTRUMENTS] using hv
    rcases hv' with rfl | rfl | rfl | rfl | rfl | rfl <;> exact ⟨_, rfl, rfl, rfl⟩
  exact runCalls_track cs (ensure Engine.initial) (fun _ => false) (fun _ => none)
    (by decide) hinit hids

/-- Witness for C1: kick muted, snare soloed, clap muted, snare un-soloed. -/
theorem applied_mute_after_calls_witness :
    ∃ e, (ensure Engine.initial).runCalls
        [.setMute "kick" true, .setSolo "snare" true, .setMute "clap" true, .setSolo "snare" false]
        = .ok e ∧ e.nodes.keys = instrumentKeys ∧
      ∀ v ∈ instrumentKeys, ∃ n, e.nodes.get v = some n ∧
        n.solo = lastSolo
          [.setMute "kick" true, .setSolo "snare" true, .setMute "clap" true, .setSolo "snare" false] v ∧
        n.vol.mute = codeAppliedMute
          (muteSinceSolo
            [.setMute "kick" true, .setSolo "snare" true, .setMute "clap" true, .setSolo "snare" false] v)
          (instrumentKeys.any (fun k => lastSolo
            [.setMute "kick" true, .setSolo "snare" true, .setMute "clap" true, .setSolo "snare" false] k))
          (lastSolo
            [.setMute "kick" true, .setSolo "snare" true, .setMute "clap" true, .setSolo "snare" false] v) :=
  applied_mute_after_calls
    [.setMute "kick" true, .setSolo "snare" true, .setMute "clap" true, .setSolo "snare" false]
    (by decide)

end Beatbox
